import Mathlib

/-!
Shallow embedding of the webhook-relay core of the `yabetoo-cli` repository:
the signature module (`signature.ts`), the delivery forwarder
(`forwardWebhook` in `http-client.ts`), and the SSE stream consumer
(`sse-client.ts`).  JavaScript strings are modelled as Lean `String`
(lists of characters); JavaScript numbers carrying integer values are
modelled as `Int`/`Nat`; the real-valued reconnect jitter is modelled as `ℚ`.
The HMAC-SHA256 primitive comes from `node:crypto`, outside the repository,
so every signature function is parameterised by an abstract
`hmacHex : String → String → String` (secret, message ↦ hex digest).
-/

namespace Yabetoo

/-! ### JavaScript number / string primitives used by `signature.ts` -/

/-- Numeric value of a decimal digit character, as in `parseInt`. -/
def digitVal (c : Char) : Nat := c.toNat - 48

/-- Value of a list of decimal digit characters, most significant first. -/
def digitsToNat (ds : List Char) : Nat :=
  ds.foldl (fun a c => a * 10 + digitVal c) 0

/-- The longest decimal-digit prefix of `cs`, as a value; `none` if there is
no leading digit.  Models the digit-consuming core of JS `parseInt(s, 10)`. -/
def digitsVal? (cs : List Char) : Option Nat :=
  let ds := cs.takeWhile Char.isDigit
  if ds = [] then none else some (digitsToNat ds)

/-- Sign-and-digits stage of `parseIntJS`, applied after whitespace is
stripped. -/
def parseIntSigned : List Char → Option Int
  | [] => none
  | c :: rest =>
    if c = '-' then (digitsVal? rest).map (fun n => -(n : Int))
    else if c = '+' then (digitsVal? rest).map (fun n => (n : Int))
    else (digitsVal? (c :: rest)).map (fun n => (n : Int))

/-- Model of JavaScript `parseInt(s, 10)`: skip leading whitespace, read an
optional sign, then the longest digit prefix; `none` models `NaN`. -/
def parseIntJS (cs : List Char) : Option Int :=
  parseIntSigned (cs.dropWhile Char.isWhitespace)

/-- Model of JavaScript `str.split(',')`; `"".split(',')` is `[""]`. -/
def splitOnComma : List Char → List (List Char)
  | [] => [[]]
  | c :: rest =>
    if c = ',' then [] :: splitOnComma rest
    else
      match splitOnComma rest with
      | [] => [[c]]
      | g :: gs => (c :: g) :: gs

/-- JS `e.startsWith('t=')`. -/
def hasTagT (cs : List Char) : Bool :=
  match cs with
  | c1 :: c2 :: _ => c1 == 't' && c2 == '='
  | _ => false

/-- JS `e.startsWith('v1=')`. -/
def hasTagV1 (cs : List Char) : Bool :=
  match cs with
  | c1 :: c2 :: c3 :: _ => c1 == 'v' && c2 == '1' && c3 == '='
  | _ => false

/-- Reversed decimal digits of `n`; the first argument is structural fuel
(`n` itself suffices). -/
def natDigitsGo : Nat → Nat → List Char
  | 0, _ => []
  | _ + 1, 0 => []
  | fuel + 1, n + 1 =>
    Char.ofNat (48 + (n + 1) % 10) :: natDigitsGo fuel ((n + 1) / 10)

/-- Decimal rendering of a natural number, as JS `${n}` produces. -/
def renderNat (n : Nat) : List Char :=
  if n = 0 then ['0'] else (natDigitsGo n n).reverse

/-- Decimal rendering of an integer, as JS `${i}` produces. -/
def renderInt : Int → List Char
  | .ofNat n => renderNat n
  | .negSucc n => '-' :: renderNat (n + 1)

/-- String form of `renderInt`. -/
def renderIntStr (i : Int) : String := ⟨renderInt i⟩

/-! ### `signature.ts` -/

/-- Result of `parseSignatureHeader`: the `{ timestamp, signature }` record. -/
structure ParsedSignature where
  timestamp : Int
  signature : String
deriving DecidableEq, Repr

/-- `parseSignatureHeader` from `signature.ts`: split the header on `,`,
find the first element starting with `t=` and the first starting with `v1=`,
parse the timestamp with `parseInt(·, 10)`, and fail on a missing tag,
non-numeric timestamp, or empty signature segment. -/
def parseSignatureHeader (header : String) : Option ParsedSignature :=
  match (splitOnComma header.data).find? hasTagT,
      (splitOnComma header.data).find? hasTagV1 with
  | some tEl, some vEl =>
    match parseIntJS (tEl.drop 2) with
    | none => none
    | some timestamp =>
      if vEl.drop 3 = [] then none else some ⟨timestamp, ⟨vEl.drop 3⟩⟩
  | _, _ => none

/-- The string `"{timestamp}.{payload}"` that is HMAC-signed. -/
def signedPayloadStr (ts : Int) (payload : String) : String :=
  renderIntStr ts ++ "." ++ payload

/-- Result record of `generateSignature`. -/
structure SignatureRecord where
  timestamp : Int
  signature : String
  header : String
deriving DecidableEq, Repr

/-- `generateSignature` from `signature.ts`, with the timestamp passed
explicitly (the source defaults it to the current Unix time) and the
HMAC-SHA256 hex digest abstracted as `hmacHex`. -/
def generateSignature (hmacHex : String → String → String)
    (payload secret : String) (ts : Int) : SignatureRecord :=
  let signature := hmacHex secret (signedPayloadStr ts payload)
  { timestamp := ts
    signature := signature
    header := "t=" ++ renderIntStr ts ++ ",v1=" ++ signature }

/-- Model of `crypto.timingSafeEqual(Buffer.from(a), Buffer.from(b))` wrapped
in the source's try/catch: a byte-length mismatch throws and is caught
(`false`); otherwise the result is byte equality of the UTF-8 encodings. -/
def timingSafeEqualJS (a b : String) : Bool :=
  a.utf8ByteSize == b.utf8ByteSize && a == b

/-- `verifySignature` from `signature.ts`, with the ambient clock passed as
`now` (the source reads `Date.now()`): parse the header, enforce
`|now - timestamp| ≤ toleranceSeconds`, recompute the digest and compare. -/
def verifySignature (hmacHex : String → String → String) (now : Int)
    (payload signatureHeader secret : String) (toleranceSeconds : Int) : Bool :=
  match parseSignatureHeader signatureHeader with
  | none => false
  | some parsed =>
    if toleranceSeconds < |now - parsed.timestamp| then false
    else
      timingSafeEqualJS parsed.signature
        (hmacHex secret (signedPayloadStr parsed.timestamp payload))

/-! ### Rendering / parsing round-trip lemmas -/

/-- A character is a benign digit: a decimal digit, not a comma, not
whitespace, and not a sign character. -/
def goodDigit (c : Char) : Prop :=
  c.isDigit = true ∧ c ≠ ',' ∧ c.isWhitespace = false ∧ c ≠ '-' ∧ c ≠ '+'

theorem goodDigit_ofNat (d : Nat) (hd : d < 10) : goodDigit (Char.ofNat (48 + d)) := by
  interval_cases d <;> exact ⟨rfl, by decide, rfl, by decide, by decide⟩

theorem natDigitsGo_good (fuel n : Nat) :
    ∀ c ∈ natDigitsGo fuel n, goodDigit c := by
  induction fuel generalizing n with
  | zero => intro c hc; simp [natDigitsGo] at hc
  | succ fuel ih =>
    intro c hc
    match n with
    | 0 => simp [natDigitsGo] at hc
    | m + 1 =>
      rw [natDigitsGo] at hc
      rcases List.mem_cons.mp hc with h | h
      · subst h; exact goodDigit_ofNat _ (Nat.mod_lt _ (by decide))
      · exact ih _ c h

theorem digitsToNat_append_singleton (xs : List Char) (c : Char) :
    digitsToNat (xs ++ [c]) = digitsToNat xs * 10 + digitVal c := by
  simp [digitsToNat, List.foldl_append]

theorem digitsToNat_natDigitsGo_reverse (fuel : Nat) :
    ∀ n, n ≤ fuel → digitsToNat (natDigitsGo fuel n).reverse = n := by
  induction fuel with
  | zero =>
    intro n hn
    interval_cases n
    simp [natDigitsGo, digitsToNat]
  | succ fuel ih =>
    intro n hn
    match n with
    | 0 => simp [natDigitsGo, digitsToNat]
    | m + 1 =>
      rw [natDigitsGo, List.reverse_cons, digitsToNat_append_singleton]
      have hdiv : (m + 1) / 10 ≤ fuel := by
        have := Nat.div_lt_self (Nat.succ_pos m) (by decide : 1 < 10)
        omega
      rw [ih _ hdiv]
      have hval : digitVal (Char.ofNat (48 + (m + 1) % 10)) = (m + 1) % 10 := by
        have h10 : (m + 1) % 10 < 10 := Nat.mod_lt _ (by decide)
        interval_cases h : (m + 1) % 10 <;> simp [digitVal, Char.ofNat] <;> rfl
      rw [hval]
      omega

theorem renderNat_good (n : Nat) : ∀ c ∈ renderNat n, goodDigit c := by
  intro c hc
  unfold renderNat at hc
  split at hc
  · rw [List.mem_singleton] at hc
    subst hc
    exact ⟨rfl, by decide, rfl, by decide, by decide⟩
  · exact natDigitsGo_good n n c (List.mem_reverse.mp hc)

theorem renderNat_ne_nil (n : Nat) : renderNat n ≠ [] := by
  unfold renderNat
  split
  · simp
  · next h =>
    rcases Nat.exists_eq_succ_of_ne_zero h with ⟨k, rfl⟩
    rw [natDigitsGo]
    simp

theorem digitsToNat_renderNat (n : Nat) : digitsToNat (renderNat n) = n := by
  unfold renderNat
  split
  · next h => subst h; rfl
  · exact digitsToNat_natDigitsGo_reverse n n (le_refl n)

theorem takeWhile_of_all {p : Char → Bool} :
    ∀ l : List Char, (∀ c ∈ l, p c = true) → l.takeWhile p = l := by
  intro l h
  induction l with
  | nil => rfl
  | cons a l ih =>
    rw [List.takeWhile_cons, h a (List.mem_cons_self a l)]
    simp [ih (fun c hc => h c (List.mem_cons_of_mem a hc))]

theorem dropWhile_of_all {p : Char → Bool} :
    ∀ l : List Char, (∀ c ∈ l, p c = false) → l.dropWhile p = l := by
  intro l h
  induction l with
  | nil => rfl
  | cons a l _ =>
    rw [List.dropWhile_cons, h a (List.mem_cons_self a l)]
    simp

theorem digitsVal?_renderNat (n : Nat) : digitsVal? (renderNat n) = some n := by
  unfold digitsVal?
  rw [takeWhile_of_all _ (fun c hc => (renderNat_good n c hc).1)]
  simp only [renderNat_ne_nil n, if_false, digitsToNat_renderNat]

theorem parseIntSigned_renderNat (n : Nat) :
    parseIntSigned (renderNat n) = some (Int.ofNat n) := by
  match hr : renderNat n with
  | [] => exact absurd hr (renderNat_ne_nil n)
  | c :: rest =>
    have hg : goodDigit c :=
      renderNat_good n c (by rw [hr]; exact List.mem_cons_self c rest)
    rw [parseIntSigned, if_neg hg.2.2.2.1, if_neg hg.2.2.2.2, ← hr,
      digitsVal?_renderNat]
    rfl

theorem parseIntJS_renderInt (i : Int) : parseIntJS (renderInt i) = some i := by
  match i with
  | .ofNat n =>
    unfold parseIntJS renderInt
    rw [dropWhile_of_all _ (fun c hc => (renderNat_good n c hc).2.2.1),
      parseIntSigned_renderNat]
  | .negSucc n =>
    unfold parseIntJS renderInt
    rw [List.dropWhile_cons]
    simp only [show ('-').isWhitespace = false from rfl, Bool.false_eq_true,
      if_false, parseIntSigned, if_pos rfl, digitsVal?_renderNat (n + 1),
      Option.map_some]
    rfl

/-! ### Splitting lemmas for the generated header -/

theorem splitOnComma_no_comma (a : List Char) (h : ∀ c ∈ a, c ≠ ',') :
    splitOnComma a = [a] := by
  induction a with
  | nil => rfl
  | cons c a ih =>
    rw [splitOnComma, if_neg (h c (List.mem_cons_self c a)),
      ih (fun x hx => h x (List.mem_cons_of_mem c hx))]

theorem splitOnComma_append (a b : List Char) (h : ∀ c ∈ a, c ≠ ',') :
    splitOnComma (a ++ ',' :: b) = a :: splitOnComma b := by
  induction a with
  | nil => rw [List.nil_append, splitOnComma, if_pos rfl]
  | cons c a ih =>
    rw [List.cons_append, splitOnComma, if_neg (h c (List.mem_cons_self c a)),
      ih (fun x hx => h x (List.mem_cons_of_mem c hx))]

theorem generated_header_data (hmacHex : String → String → String)
    (payload secret : String) (ts : Int) :
    (generateSignature hmacHex payload secret ts).header.data =
      ('t' :: '=' :: renderInt ts) ++
        ',' :: 'v' :: '1' :: '=' :: (hmacHex secret (signedPayloadStr ts payload)).data := by
  simp [generateSignature, renderIntStr, String.data_append]

theorem renderInt_no_comma (i : Int) : ∀ c ∈ renderInt i, c ≠ ',' := by
  intro c hc
  match i with
  | .ofNat n => exact (renderNat_good n c hc).2.1
  | .negSucc n =>
    rcases List.mem_cons.mp hc with h | h
    · subst h; decide
    · exact (renderNat_good (n + 1) c h).2.1

/-- Parsing the header produced by `generateSignature` recovers the timestamp
and the digest, provided the digest is nonempty and comma-free (true of every
real HMAC-SHA256 hex digest). -/
theorem parse_generated_header (hmacHex : String → String → String)
    (payload secret : String) (ts : Int)
    (hne : hmacHex secret (signedPayloadStr ts payload) ≠ "")
    (hnc : ∀ c ∈ (hmacHex secret (signedPayloadStr ts payload)).data, c ≠ ',') :
    parseSignatureHeader (generateSignature hmacHex payload secret ts).header =
      some ⟨ts, hmacHex secret (signedPayloadStr ts payload)⟩ := by
  set sig := hmacHex secret (signedPayloadStr ts payload) with hsig
  clear_value sig
  have hTnc : ∀ c ∈ 't' :: '=' :: renderInt ts, c ≠ ',' := by
    intro c hc
    rcases List.mem_cons.mp hc with h | h
    · subst h; decide
    rcases List.mem_cons.mp h with h | h
    · subst h; decide
    · exact renderInt_no_comma ts c h
  have hVnc : ∀ c ∈ 'v' :: '1' :: '=' :: sig.data, c ≠ ',' := by
    intro c hc
    rcases List.mem_cons.mp hc with h | h
    · subst h; decide
    rcases List.mem_cons.mp h with h | h
    · subst h; decide
    rcases List.mem_cons.mp h with h | h
    · subst h; decide
    · exact hnc c h
  have hTt : hasTagT ('t' :: '=' :: renderInt ts) = true := rfl
  have hTv : hasTagV1 ('t' :: '=' :: renderInt ts) = false := by
    cases renderInt ts <;> rfl
  have hVv : hasTagV1 ('v' :: '1' :: '=' :: sig.data) = true := rfl
  have hdrop2 : ('t' :: '=' :: renderInt ts).drop 2 = renderInt ts := rfl
  have hdrop3 : ('v' :: '1' :: '=' :: sig.data).drop 3 = sig.data := rfl
  have hdata : sig.data ≠ [] := by
    intro h
    cases sig with
    | mk l =>
      simp only [] at h
      subst h
      exact hne rfl
  have hmk : (⟨sig.data⟩ : String) = sig := by
    cases sig with
    | mk l => rfl
  unfold parseSignatureHeader
  rw [generated_header_data, ← hsig, splitOnComma_append _ _ hTnc,
    splitOnComma_no_comma _ hVnc]
  simp only [List.find?_cons, hTt, hTv, hVv, hdrop2, hdrop3,
    parseIntJS_renderInt, hdata, if_neg, hmk, if_false]

theorem timingSafeEqualJS_eq_true_iff (a b : String) :
    timingSafeEqualJS a b = true ↔ a = b := by
  unfold timingSafeEqualJS
  constructor
  · intro h
    exact beq_iff_eq.mp (Bool.and_elim_right h)
  · intro h
    subst h
    simp

theorem timingSafeEqualJS_eq_false_of_ne {a b : String} (h : a ≠ b) :
    timingSafeEqualJS a b = false := by
  cases he : timingSafeEqualJS a b
  · rfl
  · exact absurd ((timingSafeEqualJS_eq_true_iff a b).mp he) h

theorem verifySignature_parse_some (hmacHex : String → String → String)
    (now : Int) (p hdr s : String) (tol : Int) (pr : ParsedSignature)
    (h : parseSignatureHeader hdr = some pr) :
    verifySignature hmacHex now p hdr s tol =
      if tol < |now - pr.timestamp| then false
      else timingSafeEqualJS pr.signature
        (hmacHex s (signedPayloadStr pr.timestamp p)) := by
  unfold verifySignature
  rw [h]

/-- Concrete stand-in for the HMAC-SHA256 hex primitive, used only to
instantiate theorems on closed inputs: always nonempty and comma-free when
its inputs are. -/
def hmacModel (secret msg : String) : String := msg ++ "#" ++ secret

/-! ### Claim theorems for the signature module -/

/-- C1: signature round-trip — for every payload `p`, secret `s` and timestamp
`ts` within the default tolerance (300 s) of the current time `now`, verifying
`p` against the header produced by signing `p` with `s` at `ts` succeeds.
The HMAC primitive is abstract; the two side conditions record that an
HMAC-SHA256 hex digest is nonempty and contains no comma. -/
theorem sign_verify_roundtrip (hmacHex : String → String → String)
    (p s : String) (now ts : Int)
    (htol : |now - ts| ≤ 300)
    (hne : hmacHex s (signedPayloadStr ts p) ≠ "")
    (hnc : ∀ c ∈ (hmacHex s (signedPayloadStr ts p)).data, c ≠ ',') :
    verifySignature hmacHex now p (generateSignature hmacHex p s ts).header s 300
      = true := by
  rw [verifySignature_parse_some hmacHex now p _ s 300 _
    (parse_generated_header hmacHex p s ts hne hnc)]
  rw [if_neg (not_lt.mpr htol)]
  exact (timingSafeEqualJS_eq_true_iff _ _).mpr rfl

/-- Witness for C1 at concrete inputs. -/
theorem sign_verify_roundtrip_witness :
    verifySignature hmacModel 120 "pay"
      (generateSignature hmacModel "pay" "sec" 50).header "sec" 300 = true :=
  sign_verify_roundtrip hmacModel "pay" "sec" 120 50 (by decide) (by decide)
    (by decide)

/-- C6: tamper detection — verifying payload `p` against the header obtained
by signing a different payload `p'` with the same secret fails, within the
timestamp tolerance.  `hcoll` is the collision-freedom of the HMAC primitive
at the two signed payloads (a fact of real HMAC-SHA256 that an abstract
function cannot supply). -/
theorem tamper_detection (hmacHex : String → String → String)
    (p p' s : String) (now ts tol : Int)
    (hpp : p ≠ p')
    (htol : |now - ts| ≤ tol)
    (hne : hmacHex s (signedPayloadStr ts p') ≠ "")
    (hnc : ∀ c ∈ (hmacHex s (signedPayloadStr ts p')).data, c ≠ ',')
    (hcoll : hmacHex s (signedPayloadStr ts p) ≠ hmacHex s (signedPayloadStr ts p')) :
    verifySignature hmacHex now p (generateSignature hmacHex p' s ts).header s tol
      = false := by
  rw [verifySignature_parse_some hmacHex now p _ s tol _
    (parse_generated_header hmacHex p' s ts hne hnc)]
  rw [if_neg (not_lt.mpr htol)]
  exact timingSafeEqualJS_eq_false_of_ne hcoll.symm

/-- Witness for C6 at concrete inputs. -/
theorem tamper_detection_witness :
    verifySignature hmacModel 120 "a"
      (generateSignature hmacModel "b" "sec" 50).header "sec" 300 = false :=
  tamper_detection hmacModel "a" "b" "sec" 120 50 300 (by decide) (by decide)
    (by decide) (by decide) (by decide)

/-- C4: verification freshness and totality — `verifySignature` (a total
function; the source never throws) returns `true` exactly when the header
parses, the timestamp is within `toleranceSeconds` of `now` in either
direction, and the supplied signature equals the recomputed digest (any
length or content mismatch yields `false`); concretely, a generated signature
600 s old fails at tolerance 300 and one 100 s old passes. -/
theorem verify_freshness_totality :
    (∀ (hmacHex : String → String → String) (now : Int) (p hdr s : String)
        (tol : Int),
      verifySignature hmacHex now p hdr s tol = true ↔
        ∃ pr, parseSignatureHeader hdr = some pr ∧ |now - pr.timestamp| ≤ tol ∧
          pr.signature = hmacHex s (signedPayloadStr pr.timestamp p))
    ∧ verifySignature hmacModel 700 "p"
        (generateSignature hmacModel "p" "s" 100).header "s" 300 = false
    ∧ verifySignature hmacModel 200 "p"
        (generateSignature hmacModel "p" "s" 100).header "s" 300 = true := by
  refine ⟨?_, by decide, by decide⟩
  intro hmacHex now p hdr s tol
  cases hp : parseSignatureHeader hdr with
  | none =>
    constructor
    · intro h
      rw [verifySignature, hp] at h
      exact Bool.noConfusion h
    · rintro ⟨pr, hpr, -⟩
      exact Option.noConfusion hpr
  | some pr =>
    rw [verifySignature_parse_some hmacHex now p hdr s tol pr hp]
    by_cases htol : tol < |now - pr.timestamp|
    · rw [if_pos htol]
      constructor
      · intro h
        exact Bool.noConfusion h
      · rintro ⟨pr', hpr', htol', -⟩
        cases Option.some.inj hpr'
        exact absurd htol' (not_le.mpr htol)
    · rw [if_neg htol]
      rw [timingSafeEqualJS_eq_true_iff]
      constructor
      · intro h
        exact ⟨pr, rfl, not_lt.mp htol, h⟩
      · rintro ⟨pr', hpr', -, hsig⟩
        cases Option.some.inj hpr'
        exact hsig

/-- C5: header parsing totality — `parseSignatureHeader` is a total function
(the source never throws) returning `none` exactly when no comma-separated
element starts with `t=`, or none starts with `v1=`, or the timestamp segment
of the first `t=` element does not parse as an integer, or the signature
segment of the first `v1=` element is empty; with duplicate tags the first
occurrence wins. -/
theorem parse_header_totality :
    (∀ hdr : String,
      parseSignatureHeader hdr = none ↔
        (∀ e ∈ splitOnComma hdr.data, hasTagT e = false)
        ∨ (∀ e ∈ splitOnComma hdr.data, hasTagV1 e = false)
        ∨ (∃ tEl, (splitOnComma hdr.data).find? hasTagT = some tEl ∧
            parseIntJS (tEl.drop 2) = none)
        ∨ (∃ vEl, (splitOnComma hdr.data).find? hasTagV1 = some vEl ∧
            vEl.drop 3 = []))
    ∧ parseSignatureHeader "t=1,t=2,v1=a,v1=b" = some ⟨1, "a"⟩ := by
  refine ⟨?_, by decide⟩
  intro hdr
  cases hT : (splitOnComma hdr.data).find? hasTagT with
  | none =>
    have hAll : ∀ e ∈ splitOnComma hdr.data, hasTagT e = false := by
      intro e he
      exact Bool.eq_false_iff.mpr (List.find?_eq_none.mp hT e he)
    refine iff_of_true ?_ (Or.inl hAll)
    rw [parseSignatureHeader, hT]
  | some tEl =>
    cases hV : (splitOnComma hdr.data).find? hasTagV1 with
    | none =>
      have hAll : ∀ e ∈ splitOnComma hdr.data, hasTagV1 e = false := by
        intro e he
        exact Bool.eq_false_iff.mpr (List.find?_eq_none.mp hV e he)
      refine iff_of_true ?_ (Or.inr (Or.inl hAll))
      rw [parseSignatureHeader, hT, hV]
    | some vEl =>
      have hTmem : hasTagT tEl = true ∧ tEl ∈ splitOnComma hdr.data :=
        ⟨List.find?_some hT, List.mem_of_find?_eq_some hT⟩
      have hVmem : hasTagV1 vEl = true ∧ vEl ∈ splitOnComma hdr.data :=
        ⟨List.find?_some hV, List.mem_of_find?_eq_some hV⟩
      cases hP : parseIntJS (tEl.drop 2) with
      | none =>
        refine iff_of_true ?_ (Or.inr (Or.inr (Or.inl ⟨tEl, rfl, hP⟩)))
        rw [parseSignatureHeader, hT, hV]
        simp only [hP]
      | some n =>
        by_cases hE : vEl.drop 3 = []
        · refine iff_of_true ?_ (Or.inr (Or.inr (Or.inr ⟨vEl, rfl, hE⟩)))
          rw [parseSignatureHeader, hT, hV]
          simp only [hP, if_pos hE]
        · refine iff_of_false ?_ ?_
          · rw [parseSignatureHeader, hT, hV]
            simp only [hP, if_neg hE]
            exact fun h => Option.noConfusion h
          · rintro (h | h | ⟨tEl', hT', hP'⟩ | ⟨vEl', hV', hE'⟩)
            · exact absurd hTmem.1 (by rw [h tEl hTmem.2]; decide)
            · exact absurd hVmem.1 (by rw [h vEl hVmem.2]; decide)
            · cases Option.some.inj hT'
              rw [hP] at hP'
              exact Option.noConfusion hP'
            · cases Option.some.inj hV'
              exact hE hE'

/-! ### `forwardWebhook` (delivery forwarder, `http-client.ts`)

The network is abstracted as `fr : Nat → FetchOutcome`, giving the outcome of
the POST made on attempt `i` (0-based), and `dur : Nat → Nat` gives the
elapsed milliseconds measured for attempt `i`.  The request itself (URL,
event id/type headers, `t=...,v1=...` signature header, JSON body) does not
influence the control flow and is therefore not re-modelled here.  The
function returns the `ForwardResult` together with the number of attempts
actually made. -/

/-- Outcome of one `fetch` call: an HTTP response, or a thrown
transport/timeout error. -/
inductive FetchOutcome where
  | response (status : Nat) (body : String)
  | netError (msg : String)
deriving DecidableEq, Repr

/-- The `ForwardResult` record of `types.ts` (absent optional fields are
`none`). -/
structure ForwardResult where
  success : Bool
  statusCode : Option Nat
  durationMs : Nat
  responseBody : Option String
  error : Option String
deriving DecidableEq, Repr

/-- JS `a || b` for an optional string: `none` and `""` are falsy. -/
def jsOrElse (a : Option String) (b : String) : String :=
  match a with
  | none => b
  | some s => if s = "" then b else s

/-- The fallback result after the retry loop (`// Should not reach here`). -/
def fallbackResult (lastError : Option String) (lastStatusCode : Option Nat) :
    ForwardResult :=
  { success := false
    statusCode := lastStatusCode
    durationMs := 0
    responseBody := none
    error := some (jsOrElse lastError "Max retries exceeded") }

/-- Body of the `for (attempt = 0; attempt <= maxRetries; attempt++)` loop of
`forwardWebhook`; `fuel` is structural fuel (one unit per remaining loop
iteration, chosen large enough at the top level that it never runs out while
the loop guard holds). -/
def forwardGo (fr : Nat → FetchOutcome) (dur : Nat → Nat) (maxRetries : Int)
    (lastError : Option String) (lastStatusCode : Option Nat) (attempt : Nat) :
    Nat → ForwardResult × Nat
  | 0 => (fallbackResult lastError lastStatusCode, attempt)
  | fuel + 1 =>
    if (attempt : Int) ≤ maxRetries then
      match fr attempt with
      | .response status body =>
        if 200 ≤ status ∧ status < 300 then
          ({ success := true
             statusCode := some status
             durationMs := dur attempt
             responseBody := some (body.take 500)
             error := none }, attempt + 1)
        else if 500 ≤ status ∧ (attempt : Int) < maxRetries then
          forwardGo fr dur maxRetries (some (body.take 200)) (some status)
            (attempt + 1) fuel
        else
          ({ success := false
             statusCode := some status
             durationMs := dur attempt
             responseBody := some (body.take 500)
             error := some (body.take 200) }, attempt + 1)
      | .netError msg =>
        if (attempt : Int) < maxRetries then
          forwardGo fr dur maxRetries (some msg) lastStatusCode (attempt + 1) fuel
        else
          ({ success := false
             statusCode := none
             durationMs := dur attempt
             responseBody := none
             error := some msg }, attempt + 1)
    else
      (fallbackResult lastError lastStatusCode, attempt)

/-- `forwardWebhook` from `http-client.ts` over the abstract network `fr`. -/
def forwardWebhook (fr : Nat → FetchOutcome) (dur : Nat → Nat)
    (maxRetries : Int) : ForwardResult × Nat :=
  forwardGo fr dur maxRetries none none 0 ((maxRetries + 1).toNat + 1)

/-- An attempt outcome on which the loop stops and returns: a 2xx success or
a non-2xx response with status < 500 (client rejection).  A status ≥ 500 and
a transport error are retried while attempts remain. -/
def stops : FetchOutcome → Bool
  | .response status _ => (200 ≤ status && status < 300) || status < 500
  | .netError _ => false

/-- The result the loop body returns when attempt `k` is its last: a success
record on 2xx, a rejection record on other statuses, a transport-failure
record on a network error. -/
def attemptResult (o : FetchOutcome) (d : Nat) : ForwardResult :=
  match o with
  | .response status body =>
    if 200 ≤ status ∧ status < 300 then
      { success := true
        statusCode := some status
        durationMs := d
        responseBody := some (body.take 500)
        error := none }
    else
      { success := false
        statusCode := some status
        durationMs := d
        responseBody := some (body.take 500)
        error := some (body.take 200) }
  | .netError msg =>
    { success := false
      statusCode := none
      durationMs := d
      responseBody := none
      error := some msg }

/-- Loop characterisation: while the guard holds and fuel covers the
remaining iterations, the loop returns at the first attempt `k` whose outcome
stops it (or at `k = maxRetries` when attempts run out), with the in-loop
result for attempt `k` and `k + 1` attempts made in total. -/
theorem forwardGo_spec (fr : Nat → FetchOutcome) (dur : Nat → Nat)
    (maxRetries : Int) :
    ∀ (fuel attempt : Nat) (lastError : Option String)
      (lastStatusCode : Option Nat),
      (attempt : Int) ≤ maxRetries → maxRetries < (attempt : Int) + fuel →
      ∃ k : Nat, attempt ≤ k ∧ (k : Int) ≤ maxRetries ∧
        (∀ i, attempt ≤ i → i < k → stops (fr i) = false) ∧
        ((k : Int) = maxRetries ∨ stops (fr k) = true) ∧
        forwardGo fr dur maxRetries lastError lastStatusCode attempt fuel =
          (attemptResult (fr k) (dur k), k + 1) := by
  intro fuel
  induction fuel with
  | zero =>
    intro attempt le ls hle hlt
    exact absurd hle (by push_cast at hlt ⊢; omega)
  | succ fuel ih =>
    intro attempt le ls hle hlt
    rw [forwardGo, if_pos hle]
    cases ho : fr attempt with
    | response status body =>
      dsimp only
      by_cases h2xx : 200 ≤ status ∧ status < 300
      · refine ⟨attempt, le_refl attempt, hle, fun i h1 h2 => absurd h1 (by omega),
          Or.inr ?_, ?_⟩
        · rw [ho]
          simp only [stops, Bool.or_eq_true, Bool.and_eq_true, decide_eq_true_eq]
          omega
        · rw [ho]
          simp only [attemptResult, if_pos h2xx]
      · rw [if_neg h2xx]
        by_cases hretry : 500 ≤ status ∧ (attempt : Int) < maxRetries
        · rw [if_pos hretry]
          obtain ⟨k, hk1, hk2, hk3, hk4, hk5⟩ :=
            ih (attempt + 1) (some (body.take 200)) (some status)
              (by exact_mod_cast hretry.2) (by push_cast at hlt ⊢; omega)
          refine ⟨k, by omega, hk2, ?_, hk4, hk5⟩
          intro i hi1 hi2
          rcases Nat.eq_or_lt_of_le hi1 with h | h
          · rw [← h, ho]
            simp only [stops, Bool.or_eq_false_iff, Bool.and_eq_false_iff,
              decide_eq_false_iff_not]
            constructor
            · right; omega
            · omega
          · exact hk3 i (by omega) hi2
        · rw [if_neg hretry]
          refine ⟨attempt, le_refl attempt, hle,
            fun i h1 h2 => absurd h1 (by omega), ?_, ?_⟩
          · by_cases h500 : 500 ≤ status
            · left
              have : ¬ (attempt : Int) < maxRetries := fun hc => hretry ⟨h500, hc⟩
              omega
            · right
              rw [ho]
              simp only [stops, Bool.or_eq_true, Bool.and_eq_true, decide_eq_true_eq]
              omega
          · rw [ho]
            simp only [attemptResult, if_neg h2xx]
    | netError msg =>
      dsimp only
      by_cases hretry : (attempt : Int) < maxRetries
      · rw [if_pos hretry]
        obtain ⟨k, hk1, hk2, hk3, hk4, hk5⟩ :=
          ih (attempt + 1) (some msg) ls (by exact_mod_cast hretry)
            (by push_cast at hlt ⊢; omega)
        refine ⟨k, by omega, hk2, ?_, hk4, hk5⟩
        intro i hi1 hi2
        rcases Nat.eq_or_lt_of_le hi1 with h | h
        · rw [← h, ho]
          rfl
        · exact hk3 i (by omega) hi2
      · rw [if_neg hretry]
        refine ⟨attempt, le_refl attempt, hle,
          fun i h1 h2 => absurd h1 (by omega), Or.inl (by omega), ?_⟩
        rw [ho]
        rfl

/-- `forwardWebhook` characterisation for `maxRetries = N ≥ 0`. -/
theorem forwardWebhook_spec (fr : Nat → FetchOutcome) (dur : Nat → Nat)
    (N : Nat) :
    ∃ k : Nat, k ≤ N ∧
      (∀ i, i < k → stops (fr i) = false) ∧
      ((k : Int) = (N : Int) ∨ stops (fr k) = true) ∧
      forwardWebhook fr dur N = (attemptResult (fr k) (dur k), k + 1) := by
  obtain ⟨k, -, hk2, hk3, hk4, hk5⟩ :=
    forwardGo_spec fr dur (N : Int) ((N + 1 : Int).toNat + 1) 0 none none
      (by exact_mod_cast Nat.zero_le N) (by push_cast; omega)
  exact ⟨k, by exact_mod_cast hk2, fun i hi => hk3 i (Nat.zero_le i) hi, hk4,
    hk5⟩

/-! ### Claim theorems for the forwarder -/

/-- C2: attempt bound and stop conditions — with `maxRetries = N ≥ 0`,
`forwardWebhook` makes at most `N + 1` attempts, every attempt before the
last one was retryable (status ≥ 500 or transport error, i.e. not a stopping
outcome), and against a target answering 500 on every attempt it makes
exactly `N + 1` attempts and returns a failure result. -/
theorem forward_attempt_bound (fr : Nat → FetchOutcome) (dur : Nat → Nat)
    (N : Nat) :
    (forwardWebhook fr dur (N : Int)).2 ≤ N + 1
    ∧ (∀ i, i + 1 < (forwardWebhook fr dur (N : Int)).2 → stops (fr i) = false)
    ∧ (∀ body, (∀ i, fr i = .response 500 body) →
        (forwardWebhook fr dur (N : Int)).2 = N + 1
        ∧ (forwardWebhook fr dur (N : Int)).1.success = false) := by
  obtain ⟨k, hk1, hk2, hk3, hk4⟩ := forwardWebhook_spec fr dur N
  rw [hk4]
  dsimp only
  refine ⟨by omega, ?_, ?_⟩
  · intro i hi
    exact hk2 i (by omega)
  · intro body hall
    have hstops : ∀ i, stops (fr i) = false := by
      intro i
      rw [hall i]
      rfl
    have hkN : k = N := by
      rcases hk3 with h | h
      · exact_mod_cast h
      · rw [hstops k] at h
        exact Bool.noConfusion h
    rw [hkN]
    refine ⟨rfl, ?_⟩
    rw [hall N, attemptResult, if_neg (by omega : ¬ (200 ≤ 500 ∧ 500 < 300))]

/-- Target that returns HTTP 500 on every attempt. -/
def always500 : Nat → FetchOutcome := fun _ => .response 500 "oops"

/-- Attempt-duration model used for closed instances. -/
def durZero : Nat → Nat := fun _ => 0

/-- Witness for C2: 500 on every attempt with `maxRetries = 2` gives exactly
3 attempts and failure. -/
theorem forward_attempt_bound_witness :
    (forwardWebhook always500 durZero ((2 : Nat) : Int)).2 = 2 + 1
    ∧ (forwardWebhook always500 durZero ((2 : Nat) : Int)).1.success = false :=
  (forward_attempt_bound always500 durZero 2).2.2 "oops" (fun _ => rfl)

/-- C3: short-circuit on client rejection — when attempt `j` (with all
earlier attempts retryable) receives a non-2xx response with status < 500,
`forwardWebhook` returns immediately after `j + 1` attempts with
`success = false` and that status. -/
theorem forward_client_rejection (fr : Nat → FetchOutcome) (dur : Nat → Nat)
    (N j status : Nat) (body : String)
    (hjN : j ≤ N)
    (hpre : ∀ i, i < j → stops (fr i) = false)
    (hj : fr j = .response status body)
    (h2xx : ¬ (200 ≤ status ∧ status < 300))
    (h500 : status < 500) :
    forwardWebhook fr dur (N : Int) =
      ({ success := false
         statusCode := some status
         durationMs := dur j
         responseBody := some (body.take 500)
         error := some (body.take 200) }, j + 1) := by
  obtain ⟨k, hk1, hk2, hk3, hk4⟩ := forwardWebhook_spec fr dur N
  have hstopj : stops (fr j) = true := by
    rw [hj]
    simp only [stops, Bool.or_eq_true, Bool.and_eq_true, decide_eq_true_eq]
    omega
  have hkj : k = j := by
    rcases Nat.lt_trichotomy k j with h | h | h
    · rcases hk3 with hEq | hS
      · omega
      · rw [hpre k h] at hS
        exact Bool.noConfusion hS
    · exact h
    · rw [hk2 j h] at hstopj
      exact Bool.noConfusion hstopj
  subst hkj
  rw [hk4, hj, attemptResult, if_neg h2xx]

/-- Target that returns HTTP 404 on every attempt. -/
def always404 : Nat → FetchOutcome := fun _ => .response 404 "nf"

/-- Witness for C3: a 404 on the first attempt gives exactly 1 attempt and a
failure with status 404. -/
theorem forward_client_rejection_witness :
    forwardWebhook always404 durZero ((3 : Nat) : Int) =
      ({ success := false
         statusCode := some 404
         durationMs := 0
         responseBody := some ("nf".take 500)
         error := some ("nf".take 200) }, 0 + 1) :=
  forward_client_rejection always404 durZero 3 0 404 "nf" (by omega)
    (fun i hi => absurd hi (by omega)) rfl (by omega) (by omega)

/-- C10: the post-loop fallback (`'Max retries exceeded'`, `durationMs 0`) is
unreachable when `maxRetries ≥ 0` — every result is then produced by the loop
body for some attempt `k ≤ maxRetries` — and it is reached exactly when
`maxRetries < 0`, with zero network attempts and a
`{success := false, durationMs := 0}` result. -/
theorem forward_fallback_unreachable :
    (∀ (fr : Nat → FetchOutcome) (dur : Nat → Nat) (M : Int), M < 0 →
      forwardWebhook fr dur M =
        ({ success := false
           statusCode := none
           durationMs := 0
           responseBody := none
           error := some "Max retries exceeded" }, 0))
    ∧ (∀ (fr : Nat → FetchOutcome) (dur : Nat → Nat) (N : Nat), ∃ k, k ≤ N ∧
        forwardWebhook fr dur (N : Int) =
          (attemptResult (fr k) (dur k), k + 1)) := by
  constructor
  · intro fr dur M hM
    unfold forwardWebhook
    have h1 : (M + 1).toNat = 0 := by omega
    rw [h1, forwardGo, if_neg (by push_cast; omega : ¬ ((0 : Nat) : Int) ≤ M)]
    rfl
  · intro fr dur N
    obtain ⟨k, hk1, -, -, hk4⟩ := forwardWebhook_spec fr dur N
    exact ⟨k, hk1, hk4⟩

/-- Witness for C10: `maxRetries = -1` reaches the fallback with zero
attempts. -/
theorem forward_fallback_unreachable_witness :
    forwardWebhook always500 durZero (-1) =
      ({ success := false
         statusCode := none
         durationMs := 0
         responseBody := none
         error := some "Max retries exceeded" }, 0) :=
  forward_fallback_unreachable.1 always500 durZero (-1) (by omega)

/-! ### `sse-client.ts` (stream consumer)

The `SSEClient` instance state is the record below; the `EventSource`
callbacks and the private methods become explicit transition functions from
state to state paired with a list of observable actions (connection opens
with their headers, user callbacks, reconnect-timer scheduling).  The
real-valued `Math.random() * 1000` jitter is passed in as a rational
argument, and the ambient clock plays no role. -/

/-- The `DevListenerWebhookMessage` record of `types.ts` (the opaque JSON
payload is kept as an uninterpreted string; the signature pair as its two
fields). -/
structure DevListenerWebhookMessage where
  id : String
  type : String
  createdAt : String
  payload : String
  signatureT : Int
  signatureV1 : String
deriving DecidableEq, Repr

/-- Mutable fields of an `SSEClient` instance (`maxReconnectAttempts = 10`
and `reconnectBaseDelay = 1000` are constants, kept below). -/
structure SSEState where
  esActive : Bool
  reconnectAttempts : Nat
  isClosing : Bool
  lastEventId : Option String
deriving DecidableEq, Repr

/-- `maxReconnectAttempts` field initialiser. -/
def maxReconnectAttempts : Nat := 10

/-- `reconnectBaseDelay` field initialiser (milliseconds). -/
def reconnectBaseDelay : ℚ := 1000

/-- Observable effects of a transition. -/
inductive SSEAction where
  | openConnection (headers : List (String × String))
  | callbackConnected
  | callbackDisconnected (msg : String)
  | callbackReconnecting (attempt : Nat)
  | callbackWebhook (m : DevListenerWebhookMessage)
  | scheduleReconnectTimer (delay : ℚ)
  | logParseError
deriving DecidableEq, Repr

/-- The `Last-Event-ID` header added by `createEventSource` when
`this.lastEventId` is truthy (JS: `undefined` and `""` are falsy). -/
def lastEventIdHeader : Option String → List (String × String)
  | some id => if id = "" then [] else [("Last-Event-ID", id)]
  | none => []

/-- `createEventSource`: build the headers (static headers plus the resume
cursor) and open a new `EventSource`. -/
def createEventSource (base : List (String × String)) (s : SSEState) :
    SSEState × List SSEAction :=
  ({ s with esActive := true },
   [.openConnection (base ++ lastEventIdHeader s.lastEventId)])

/-- `connect()`: clear `isClosing` and open the event source. -/
def connect (base : List (String × String)) (s : SSEState) :
    SSEState × List SSEAction :=
  createEventSource base { s with isClosing := false }

/-- `close()`: set `isClosing`, close and drop the event source. -/
def close (s : SSEState) : SSEState :=
  { s with isClosing := true, esActive := false }

/-- The `onopen` handler: reset `reconnectAttempts` and fire `onConnected`. -/
def handleOpen (s : SSEState) : SSEState × List SSEAction :=
  ({ s with reconnectAttempts := 0 }, [.callbackConnected])

/-- `delay` computed by `reconnect` for attempt number `k ≥ 1` with jitter
`j` (the value of `Math.random() * 1000`):
`min(reconnectBaseDelay * 2^(k-1) + j, 30000)`. -/
def reconnectDelay (k : Nat) (j : ℚ) : ℚ :=
  min (reconnectBaseDelay * 2 ^ (k - 1) + j) 30000

/-- The private `reconnect()` method: give up silently while closing, report
a terminal error when attempts are exhausted, otherwise bump the counter,
fire `onReconnecting` and schedule the backoff timer. -/
def reconnect (j : ℚ) (s : SSEState) : SSEState × List SSEAction :=
  if s.isClosing then (s, [])
  else if maxReconnectAttempts ≤ s.reconnectAttempts then
    (s, [.callbackDisconnected "Max reconnection attempts reached"])
  else
    ({ s with reconnectAttempts := s.reconnectAttempts + 1 },
     [.callbackReconnecting (s.reconnectAttempts + 1),
      .scheduleReconnectTimer (reconnectDelay (s.reconnectAttempts + 1) j)])

/-- The `onerror` handler: return early while closing, else fire
`onDisconnected` and call `reconnect`. -/
def handleError (j : ℚ) (s : SSEState) : SSEState × List SSEAction :=
  if s.isClosing then (s, [])
  else
    ((reconnect j s).1,
     .callbackDisconnected "SSE connection error" :: (reconnect j s).2)

/-- Firing of a previously scheduled backoff timer: reopen the event source
unless the client is closing. -/
def timerFire (base : List (String × String)) (s : SSEState) :
    SSEState × List SSEAction :=
  if s.isClosing then (s, []) else createEventSource base s

/-- The `webhook` event listener: `decoded` is the result of
`JSON.parse(event.data)` (`none` when it throws) and `streamEventId` is
`event.lastEventId` (`""` when absent).  On success the resume cursor
prefers the stream-protocol id, falls back to the message id, and the
`onWebhook` callback fires; parse failures are logged and dropped. -/
def handleWebhookEvent (decoded : Option DevListenerWebhookMessage)
    (streamEventId : String) (s : SSEState) : SSEState × List SSEAction :=
  match decoded with
  | none => (s, [.logParseError])
  | some m =>
    (if streamEventId != "" then { s with lastEventId := some streamEventId }
     else if m.id != "" then { s with lastEventId := some m.id }
     else s,
     [.callbackWebhook m])

/-! ### Claim theorems for the stream consumer -/

/-- Initial state of a fresh `SSEClient` constructed without a prior cursor. -/
def sseInit : SSEState :=
  { esActive := false, reconnectAttempts := 0, isClosing := false,
    lastEventId := none }

/-- Static auth headers used for closed instances. -/
def baseHeaders : List (String × String) :=
  [("Authorization", "ApiKey k"), ("Accept", "text/event-stream")]

/-- A decoded notification with id `evt_7`. -/
def msgEvt7 : DevListenerWebhookMessage :=
  { id := "evt_7", type := "payment.succeeded", createdAt := "", payload := "",
    signatureT := 0, signatureV1 := "" }

/-- C7: resume-cursor invariant — a successfully decoded webhook event sets
`lastEventId` to the stream-protocol event id when present (nonempty),
otherwise to the notification's own `id` (malformed events leave the state
unchanged); every (re)connection attempt opens with a `Last-Event-ID` header
equal to the current cursor; concretely, after receiving `evt_7` and a forced
disconnect, the reconnect opens with cursor `evt_7`. -/
theorem resume_cursor_invariant :
    (∀ (s : SSEState) (m : DevListenerWebhookMessage) (streamId : String),
      (streamId ≠ "" →
        (handleWebhookEvent (some m) streamId s).1.lastEventId = some streamId)
      ∧ (streamId = "" → m.id ≠ "" →
        (handleWebhookEvent (some m) streamId s).1.lastEventId = some m.id)
      ∧ (handleWebhookEvent none streamId s).1 = s)
    ∧ (∀ (base : List (String × String)) (s : SSEState) (id : String),
        s.lastEventId = some id → id ≠ "" →
        (createEventSource base s).2 =
          [.openConnection (base ++ [("Last-Event-ID", id)])]
        ∧ (s.isClosing = false → timerFire base s = createEventSource base s))
    ∧ (timerFire baseHeaders
        ((handleError 0 ((handleWebhookEvent (some msgEvt7) ""
          ((connect baseHeaders sseInit).1)).1)).1)).2 =
      [.openConnection (baseHeaders ++ [("Last-Event-ID", "evt_7")])] := by
  refine ⟨?_, ?_, rfl⟩
  · intro s m streamId
    refine ⟨?_, ?_, rfl⟩
    · intro h
      simp [handleWebhookEvent, bne_iff_ne, h]
    · intro h1 h2
      simp [handleWebhookEvent, bne_iff_ne, h1, h2]
  · intro base s id hid hne
    constructor
    · simp [createEventSource, lastEventIdHeader, hid, hne]
    · intro hcl
      simp [timerFire, hcl]

/-- Witness for C7 at concrete inputs: the stream-protocol id wins when
present. -/
theorem resume_cursor_invariant_witness :
    (handleWebhookEvent (some msgEvt7) "stream_9" sseInit).1.lastEventId =
      some "stream_9" :=
  (resume_cursor_invariant.1 sseInit msgEvt7 "stream_9").1 (by decide)

/-- C8: reconnect backoff bound — the delay scheduled for attempt `k ≥ 1`
with jitter `j ∈ [0, 1000)` is `min(1000·2^(k-1) + j, 30000)`, hence at most
30000 ms and non-decreasing in `k` at fixed jitter (so also in expectation
over the jitter); `reconnectAttempts` resets to 0 on every successful open. -/
theorem backoff_bound (k : Nat) (j : ℚ) (s : SSEState)
    (hk : 1 ≤ k) (hj0 : 0 ≤ j) (hj1 : j < 1000) :
    reconnectDelay k j ≤ 30000
    ∧ reconnectDelay k j ≤ reconnectDelay (k + 1) j
    ∧ (handleOpen s).1.reconnectAttempts = 0 := by
  refine ⟨min_le_right _ _, ?_, rfl⟩
  apply min_le_min _ (le_refl (30000 : ℚ))
  have h2 : (2 : ℚ) ^ (k - 1) ≤ 2 ^ (k + 1 - 1) := by
    apply pow_le_pow_right₀ (by norm_num : (1 : ℚ) ≤ 2)
    omega
  have h3 := mul_le_mul_of_nonneg_left h2
    (by norm_num [reconnectBaseDelay] : (0 : ℚ) ≤ reconnectBaseDelay)
  linarith

/-- Witness for C8 at concrete inputs. -/
theorem backoff_bound_witness :
    reconnectDelay 1 (1 / 2) ≤ 30000
    ∧ reconnectDelay 1 (1 / 2) ≤ reconnectDelay 2 (1 / 2)
    ∧ (handleOpen sseInit).1.reconnectAttempts = 0 :=
  backoff_bound 1 (1 / 2) sseInit (by norm_num) (by norm_num) (by norm_num)

/-- C9: `close()` is idempotent and terminal for reconnection — closing a
closed client leaves the state unchanged, and after `close()` (absent a new
`connect()`) the error handler, the `reconnect` method and any
already-scheduled backoff timer all return the state unchanged with no
actions: nothing reopens the connection or schedules a reconnect. -/
theorem close_idempotent_terminal (s : SSEState) (j : ℚ)
    (base : List (String × String)) :
    close (close s) = close s
    ∧ (close s).isClosing = true
    ∧ (close s).esActive = false
    ∧ handleError j (close s) = (close s, [])
    ∧ reconnect j (close s) = (close s, [])
    ∧ timerFire base (close s) = (close s, []) := by
  refine ⟨rfl, rfl, rfl, ?_, ?_, ?_⟩
  · simp [handleError, close]
  · simp [reconnect, close]
  · simp [timerFire, close]

end Yabetoo
